import Mathlib

/-!
Shallow embedding of `godepgraph` (src/main.go): a dependency-graph tool
that recursively resolves Go packages through `go/build`, stores them in a
memoization map, filters them, and renders a dot graph.

The embedding mirrors the source function by function:
  * `hasPrefixes`, `isIgnored`   — the filter engine (main.go:174-188);
  * `getImports`                 — self-reference and duplicate removal
                                   (main.go:142-162);
  * `getId`                      — the identity allocator (main.go:164-172);
  * `processPackage`             — the recursive resolver (main.go:111-140),
                                   with explicit state threading and fuel;
  * `renderLoop` / `renderEdges` — the output loop of `main`
                                   (main.go:75-108), producing node and edge
                                   records instead of printed text;
  * `mainRun`                    — `main` after flag parsing (main.go:67-108).

`go/build`'s `Context.Import` is the external metadata provider; it is a
parameter `provider : String → Except String Package`.  Go maps become
association lists; map assignment is `insertStore` (replace first binding or
append).  The provider-invocation log `St.log` records each call to the
provider, so that claims about re-invocation are statable.
-/

set_option autoImplicit false

namespace Godepgraph

/-- `go/build.Package`, restricted to the fields main.go reads:
`ImportPath`, `Goroot`, `CgoFiles`, `Imports`, `TestImports`, `XTestImports`. -/
structure Package where
  importPath : String
  goroot : Bool
  cgoFiles : List String
  imports : List String
  testImports : List String
  xtestImports : List String
deriving Repr, DecidableEq

/-- The configuration globals of main.go after flag parsing:
`*ignoreStdlib`, `*delveGoroot`, `ignoredPrefixes`, `onlyPrefixes`,
the exact-match `ignored` map (as a list of its keys), `*includeTests`. -/
structure Config where
  ignoreStdlib : Bool
  delveGoroot : Bool
  ignoredPrefixes : List String
  onlyPrefixes : List String
  ignored : List String
  includeTests : Bool
deriving Repr, DecidableEq

/-- main.go:53-57: the `ignored` map starts as `{"C": true}` and gains the
entries of the comma-separated `-i` flag when that flag is non-empty. -/
def mkIgnored (iFlag : String) : List String :=
  if iFlag = "" then ["C"] else "C" :: iFlag.splitOn ","

/-- main.go:174-181 `hasPrefixes`: whether `s` starts with any of `prefixes`
(`strings.HasPrefix(s, p)` is prefix comparison of the character sequences). -/
def hasPrefixes (s : String) : List String → Bool
  | [] => false
  | p :: rest => if p.data.isPrefixOf s.data then true else hasPrefixes s rest

/-- main.go:183-188 `isIgnored`: the filter predicate. -/
def isIgnored (cfg : Config) (pkg : Package) : Bool :=
  if cfg.onlyPrefixes.length > 0 && !hasPrefixes pkg.importPath cfg.onlyPrefixes then
    true
  else
    cfg.ignored.contains pkg.importPath
      || (pkg.goroot && cfg.ignoreStdlib)
      || hasPrefixes pkg.importPath cfg.ignoredPrefixes

/-- The loop of main.go:150-160: walk `allImports`, dropping entries equal to
`self` (the package's own import path) and entries already in `found`. -/
def getImportsGo (self : String) : List String → List String → List String
  | [], _ => []
  | imp :: rest, found =>
    if imp = self then getImportsGo self rest found
    else if found.contains imp then getImportsGo self rest found
    else imp :: getImportsGo self rest (imp :: found)

/-- main.go:142-162 `getImports`: regular imports, plus test imports when
`-t` is set, with self-references and duplicates removed. -/
def getImports (cfg : Config) (pkg : Package) : List String :=
  let allImports :=
    pkg.imports ++ (if cfg.includeTests then pkg.testImports ++ pkg.xtestImports else [])
  getImportsGo pkg.importPath allImports []

/-- First-match lookup in an association list (the read side of a Go map). -/
def lookupA {α : Type} : List (String × α) → String → Option α
  | [], _ => none
  | (k, v) :: rest, key => if k = key then some v else lookupA rest key

/-- Go map assignment `m[k] = v`: replace the binding of `k` if present,
otherwise add one. -/
def insertA {α : Type} : List (String × α) → String → α → List (String × α)
  | [], key, v => [(key, v)]
  | (k, w) :: rest, key, v =>
    if k = key then (key, v) :: rest else (k, w) :: insertA rest key v

/-- The identity allocator's state: the `ids` map and `nextId` counter
(main.go:14-15). -/
structure IdState where
  ids : List (String × Nat)
  nextId : Nat
deriving Repr, DecidableEq

/-- The initial allocator state: empty map, counter 0 (main.go:38). -/
def initIdState : IdState := ⟨[], 0⟩

/-- main.go:164-172 `getId`: return the existing id for `name`, or assign
`nextId` and increment the counter. -/
def getId (name : String) (s : IdState) : Nat × IdState :=
  match lookupA s.ids name with
  | some id => (id, s)
  | none => (s.nextId, ⟨(name, s.nextId) :: s.ids, s.nextId + 1⟩)

/-- The resolver's mutable state: the package store `pkgs` (main.go:13) and a
log of the import paths for which the metadata provider was invoked. -/
structure St where
  pkgs : List (String × Package)
  log : List String
deriving Repr, DecidableEq

/-- The initial resolver state: empty store, empty log (main.go:37). -/
def initSt : St := ⟨[], []⟩

/-- main.go:132-138: the recursion over a package's imports; an import whose
descriptor is already stored is skipped (memoization), and the first error
aborts the loop.  `step` is the recursive call into `processPackage` at the
next recursion depth. -/
def processImports (step : String → St → St × Except String Unit) :
    List String → St → St × Except String Unit
  | [], s => (s, Except.ok ())
  | imp :: rest, s =>
    match lookupA s.pkgs imp with
    | some _ => processImports step rest s
    | none =>
      match step imp s with
      | (s', Except.ok _) => processImports step rest s'
      | (s', Except.error e) => (s', Except.error e)

/-- main.go:111-140 `processPackage`: skip exact-ignored names, query the
provider (logging the query), fail hard on provider error, drop filtered
packages, store the descriptor, and — unless the package is in Goroot with
`-d` unset — recurse into its deduplicated imports.  `fuel` bounds the
recursion depth (Go relies on import acyclicity). -/
def processPackage (cfg : Config) (provider : String → Except String Package) :
    Nat → String → St → St × Except String Unit
  | 0, _, s => (s, Except.error "recursion limit exceeded")
  | Nat.succ n, pkgName, s =>
    if cfg.ignored.contains pkgName then (s, Except.ok ())
    else
      match provider pkgName with
      | Except.error e =>
          ({ s with log := s.log ++ [pkgName] },
           Except.error ("failed to import " ++ pkgName ++ ": " ++ e))
      | Except.ok pkg =>
          let s1 : St := { s with log := s.log ++ [pkgName] }
          if isIgnored cfg pkg then (s1, Except.ok ())
          else
            let s2 : St := { s1 with pkgs := insertA s1.pkgs pkg.importPath pkg }
            if pkg.goroot && !cfg.delveGoroot then (s2, Except.ok ())
            else processImports (processPackage cfg provider n) (getImports cfg pkg) s2

/-- A rendered node statement: id, label (the import path), fill color
(main.go:91). -/
abbrev RNode := Nat × String × String

/-- main.go:82-89: the three-way fill-color classification. -/
def colorOf (pkg : Package) : String :=
  if pkg.goroot then "palegreen"
  else if pkg.cgoFiles.length > 0 then "darkgoldenrod1"
  else "paleturquoise"

/-- main.go:98-106: the inner edge loop — for each deduplicated import, emit
an edge to it only when its descriptor is stored and not filtered. -/
def renderEdges (cfg : Config) (store : List (String × Package)) (pkgId : Nat) :
    List String → IdState → List (Nat × Nat) × IdState
  | [], s => ([], s)
  | imp :: rest, s =>
    match lookupA store imp with
    | none => renderEdges cfg store pkgId rest s
    | some impPkg =>
      if isIgnored cfg impPkg then renderEdges cfg store pkgId rest s
      else
        let r1 := getId imp s
        let r2 := renderEdges cfg store pkgId rest r1.2
        ((pkgId, r1.1) :: r2.1, r2.2)

/-- main.go:75-107: the render loop over the package store — allocate an id,
skip filtered packages, emit the node, and (unless the package is in Goroot
with `-d` unset) emit its edges. -/
def renderLoop (cfg : Config) (store : List (String × Package)) :
    List (String × Package) → IdState → List RNode × List (Nat × Nat) × IdState
  | [], s => ([], [], s)
  | (pkgName, pkg) :: rest, s =>
    let r1 := getId pkgName s
    if isIgnored cfg pkg then renderLoop cfg store rest r1.2
    else
      let node : RNode := (r1.1, pkgName, colorOf pkg)
      if pkg.goroot && !cfg.delveGoroot then
        let r2 := renderLoop cfg store rest r1.2
        (node :: r2.1, r2.2.1, r2.2.2)
      else
        let r2 := renderEdges cfg store r1.1 (getImports cfg pkg) r1.2
        let r3 := renderLoop cfg store rest r2.2
        (node :: r3.1, r2.1 ++ r3.2.1, r3.2.2)

/-- main.go:67-108 after flag parsing: resolve the root package, aborting the
run on any resolution error (`log.Fatal` prints nothing of the graph), then
render the store.  The result is the node and edge statements of the output. -/
def mainRun (cfg : Config) (provider : String → Except String Package)
    (fuel : Nat) (root : String) : Except String (List RNode × List (Nat × Nat)) :=
  match processPackage cfg provider fuel root initSt with
  | (_, Except.error e) => Except.error e
  | (st, Except.ok _) =>
    let r := renderLoop cfg st.pkgs st.pkgs initIdState
    Except.ok (r.1, r.2.1)

/-- Modelled from the spec (§3 Edge): collapsing a list to its first
occurrences, "preserving first-occurrence order".  Used only to compare with
`getImports`. -/
def keepFirstOccurrences (l : List String) : List String :=
  (l.foldl (fun acc x => if acc.contains x then acc else acc ++ [x]) [])

/-- Well-formedness of the allocator state: every assigned id is below the
counter, and no two paths share an id. -/
def WFIds (s : IdState) : Prop :=
  (∀ p i, lookupA s.ids p = some i → i < s.nextId) ∧
  (∀ p q i, lookupA s.ids p = some i → lookupA s.ids q = some i → p = q)

/-- A run of the identity allocator: the sequence of import paths for which
`getId` was called, in order. -/
def runGetIds (names : List String) (s : IdState) : IdState :=
  names.foldl (fun t n => (getId n t).2) s

/-- The store invariant of C9: every stored descriptor passes the filter. -/
def StoreInv (cfg : Config) (store : List (String × Package)) : Prop :=
  ∀ kp ∈ store, isIgnored cfg kp.2 = false

/-- The provider is canonical: a returned descriptor's import path is the
requested path (the behavior of `go/build` for canonical import paths). -/
def CanonicalProvider (provider : String → Except String Package) : Prop :=
  ∀ p pkg, provider p = Except.ok pkg → pkg.importPath = p

/-- The store agrees with the provider: every stored binding is what the
provider returns for its key. -/
def ConsistentStore (provider : String → Except String Package)
    (store : List (String × Package)) : Prop :=
  ∀ k v, lookupA store k = some v → provider k = Except.ok v

/-! ### Concrete fixtures used by witnesses and counterexamples -/

/-- A benign configuration: all flags false, no user excludes (the `ignored`
map holds only "C"), no allow/deny prefixes. -/
def exampleConfig : Config := ⟨false, false, [], [], ["C"], false⟩

/-- The benign configuration with an exact-match exclusion of "lib/b". -/
def exampleConfigExclude : Config := ⟨false, false, [], [], ["C", "lib/b"], false⟩

/-- A plain descriptor with no cgo files and no test imports. -/
def examplePkg (p : String) (g : Bool) (is : List String) : Package :=
  ⟨p, g, [], is, [], []⟩

/-- The diamond scenario of spec §8: `app` imports `lib/a` and `lib/b`, and
`lib/a` imports `lib/b`. -/
def exampleProviderDiamond : String → Except String Package := fun p =>
  if p = "app" then Except.ok (examplePkg "app" false ["lib/a", "lib/b"])
  else if p = "lib/a" then Except.ok (examplePkg "lib/a" false ["lib/b"])
  else if p = "lib/b" then Except.ok (examplePkg "lib/b" false [])
  else Except.error ("cannot find package " ++ p)

/-- A root importing only standard-library packages, which themselves import
`errors`. -/
def exampleProviderStd : String → Except String Package := fun p =>
  if p = "app" then Except.ok (examplePkg "app" false ["fmt", "os"])
  else if p = "fmt" then Except.ok (examplePkg "fmt" true ["errors"])
  else if p = "os" then Except.ok (examplePkg "os" true ["errors"])
  else if p = "errors" then Except.ok (examplePkg "errors" true [])
  else Except.error ("cannot find package " ++ p)

/-- A root whose only import cannot be resolved. -/
def exampleProviderErr : String → Except String Package := fun p =>
  if p = "app" then Except.ok (examplePkg "app" false ["bad"])
  else Except.error ("cannot find package " ++ p)

/-- A provider with a single leaf package "a". -/
def exampleProviderSingle : String → Except String Package := fun p =>
  if p = "a" then Except.ok (examplePkg "a" false [])
  else Except.error ("cannot find package " ++ p)

/-! ### Association-list lemmas -/

theorem lookupA_mem {α : Type} {l : List (String × α)} {k : String} {v : α}
    (h : lookupA l k = some v) : (k, v) ∈ l := by
  induction l with
  | nil => simp [lookupA] at h
  | cons kv rest ih =>
    obtain ⟨k', v'⟩ := kv
    simp only [lookupA] at h
    split at h
    · next heq =>
      cases h
      subst heq
      exact List.mem_cons_self _ _
    · exact List.mem_cons_of_mem _ (ih h)

theorem lookupA_insertA {α : Type} (l : List (String × α)) (k k' : String) (v : α) :
    lookupA (insertA l k v) k' = if k = k' then some v else lookupA l k' := by
  induction l with
  | nil => simp [insertA, lookupA]
  | cons kv rest ih =>
    obtain ⟨k₀, v₀⟩ := kv
    by_cases h₀ : k₀ = k
    · subst h₀
      by_cases h₁ : k₀ = k'
      · subst h₁; simp [insertA, lookupA]
      · simp [insertA, lookupA, h₁]
    · by_cases h₁ : k₀ = k'
      · subst h₁
        simp [insertA, lookupA, h₀, Ne.symm h₀]
      · simp [insertA, lookupA, h₀, h₁, ih]

theorem lookupA_insertA_self {α : Type} (l : List (String × α)) (k : String) (v : α) :
    lookupA (insertA l k v) k = some v := by
  simp [lookupA_insertA]

theorem insertA_of_lookupA_eq {α : Type} {l : List (String × α)} {k : String} {v : α}
    (h : lookupA l k = some v) : insertA l k v = l := by
  induction l with
  | nil => simp [lookupA] at h
  | cons kv rest ih =>
    obtain ⟨k₀, v₀⟩ := kv
    simp only [lookupA] at h
    by_cases h₀ : k₀ = k
    · subst h₀
      simp only [if_pos rfl] at h
      cases h
      simp [insertA]
    · simp only [if_neg h₀] at h
      simp [insertA, h₀, ih h]

/-! ### Identity allocator lemmas -/

theorem getId_lookup_some {s : IdState} {n : String} {i : Nat}
    (h : lookupA s.ids n = some i) : getId n s = (i, s) := by
  simp [getId, h]

theorem getId_lookup_none {s : IdState} {n : String}
    (h : lookupA s.ids n = none) :
    getId n s = (s.nextId, ⟨(n, s.nextId) :: s.ids, s.nextId + 1⟩) := by
  simp [getId, h]

theorem getId_lookup_self (n : String) (s : IdState) :
    lookupA (getId n s).2.ids n = some (getId n s).1 := by
  cases h : lookupA s.ids n with
  | some i => simp [getId, h]
  | none => simp [getId, h, lookupA]

theorem getId_mono {s : IdState} {q : String} {j : Nat} (n : String)
    (h : lookupA s.ids q = some j) : lookupA (getId n s).2.ids q = some j := by
  cases hn : lookupA s.ids n with
  | some i => simp [getId, hn, h]
  | none =>
    have hne : n ≠ q := fun he => by rw [he, h] at hn; cases hn
    simp [getId, hn, lookupA, hne, h]

theorem initIdState_WF : WFIds initIdState := by
  constructor
  · intro p i h; simp [initIdState, lookupA] at h
  · intro p q i h; simp [initIdState, lookupA] at h

theorem getId_WF {s : IdState} (n : String) (h : WFIds s) : WFIds (getId n s).2 := by
  obtain ⟨hlt, hinj⟩ := h
  cases hn : lookupA s.ids n with
  | some i => simpa [getId, hn] using ⟨hlt, hinj⟩
  | none =>
    rw [getId_lookup_none hn]
    refine ⟨?_, ?_⟩
    · intro p i hp
      simp only [lookupA] at hp
      by_cases h1 : n = p
      · rw [if_pos h1] at hp
        cases hp
        exact Nat.lt_succ_self _
      · rw [if_neg h1] at hp
        exact Nat.lt_succ_of_lt (hlt _ _ hp)
    · intro p q i hp hq
      simp only [lookupA] at hp hq
      by_cases h1 : n = p <;> by_cases h2 : n = q
      · rw [← h1, ← h2]
      · rw [if_pos h1] at hp
        rw [if_neg h2] at hq
        cases hp
        exact absurd (hlt _ _ hq) (Nat.lt_irrefl _)
      · rw [if_neg h1] at hp
        rw [if_pos h2] at hq
        cases hq
        exact absurd (hlt _ _ hp) (Nat.lt_irrefl _)
      · rw [if_neg h1] at hp
        rw [if_neg h2] at hq
        exact hinj _ _ _ hp hq

theorem runGetIds_mono {s : IdState} {q : String} {j : Nat} (names : List String)
    (h : lookupA s.ids q = some j) : lookupA (runGetIds names s).ids q = some j := by
  induction names generalizing s with
  | nil => exact h
  | cons n rest ih => exact ih (getId_mono n h)

theorem runGetIds_WF {s : IdState} (names : List String) (h : WFIds s) :
    WFIds (runGetIds names s) := by
  induction names generalizing s with
  | nil => exact h
  | cons n rest ih => exact ih (getId_WF n h)

/-! ### Claims C1 and C3 -/

/-- C1: `isIgnored` returns true iff the allowlist is non-empty and no
allowlisted entry is a prefix of the path, or the path is in the exact-match
denylist (which always contains "C"), or the package is in the standard
library with `-s` set, or some denylisted prefix matches; and a non-empty
unmatched allowlist excludes unconditionally. -/
theorem C1_isIgnored_characterization (cfg : Config) (pkg : Package) (iFlag : String) :
    (isIgnored cfg pkg = true ↔
      ((cfg.onlyPrefixes ≠ [] ∧ hasPrefixes pkg.importPath cfg.onlyPrefixes = false)
        ∨ pkg.importPath ∈ cfg.ignored
        ∨ (pkg.goroot = true ∧ cfg.ignoreStdlib = true)
        ∨ hasPrefixes pkg.importPath cfg.ignoredPrefixes = true))
    ∧ "C" ∈ mkIgnored iFlag
    ∧ (cfg.onlyPrefixes ≠ [] → hasPrefixes pkg.importPath cfg.onlyPrefixes = false →
        isIgnored cfg pkg = true) := by
  have hcond : (cfg.onlyPrefixes.length > 0 && !hasPrefixes pkg.importPath cfg.onlyPrefixes)
      = true ↔
      (cfg.onlyPrefixes ≠ [] ∧ hasPrefixes pkg.importPath cfg.onlyPrefixes = false) := by
    simp [List.length_pos]
  refine ⟨?_, ?_, ?_⟩
  · unfold isIgnored
    by_cases ho : (cfg.onlyPrefixes.length > 0
        && !hasPrefixes pkg.importPath cfg.onlyPrefixes) = true
    · rw [if_pos ho]
      exact ⟨fun _ => Or.inl (hcond.mp ho), fun _ => rfl⟩
    · rw [if_neg ho]
      constructor
      · intro h
        simp only [Bool.or_eq_true, Bool.and_eq_true, List.contains, List.elem_iff] at h
        rcases h with (h | h) | h
        · exact Or.inr (Or.inl h)
        · exact Or.inr (Or.inr (Or.inl h))
        · exact Or.inr (Or.inr (Or.inr h))
      · intro h
        simp only [Bool.or_eq_true, Bool.and_eq_true, List.contains, List.elem_iff]
        rcases h with h | h | h | h
        · exact absurd (hcond.mpr h) ho
        · exact Or.inl (Or.inl h)
        · exact Or.inl (Or.inr h)
        · exact Or.inr h
  · unfold mkIgnored
    split <;> simp
  · intro h1 h2
    unfold isIgnored
    rw [if_pos (hcond.mpr ⟨h1, h2⟩)]

/-- C1 witness: a package outside a non-empty allowlist is excluded even with
every other filter empty or unset. -/
theorem C1_isIgnored_characterization_witness :
    isIgnored ⟨false, false, [], ["foo/"], ["C"], false⟩
      ⟨"bar/baz", false, [], [], [], []⟩ = true :=
  (C1_isIgnored_characterization ⟨false, false, [], ["foo/"], ["C"], false⟩
      ⟨"bar/baz", false, [], [], [], []⟩ "").2.2 (by decide) (by decide)

/-- C3: the identity allocator starts at 0; a first call for a path assigns
the current counter and increments it; a later call for the same path, after
any further calls, returns the same id; and across any run started from the
initial state, distinct paths never share an id. -/
theorem C3_getId_injective_stable :
    initIdState.nextId = 0
    ∧ (∀ (s : IdState) (p : String), lookupA s.ids p = none →
        getId p s = (s.nextId, ⟨(p, s.nextId) :: s.ids, s.nextId + 1⟩))
    ∧ (∀ (s : IdState) (names : List String) (p : String),
        (getId p (runGetIds names (getId p s).2)).1 = (getId p s).1)
    ∧ (∀ (names : List String) (p q : String) (i j : Nat), p ≠ q →
        lookupA (runGetIds names initIdState).ids p = some i →
        lookupA (runGetIds names initIdState).ids q = some j → i ≠ j) := by
  refine ⟨rfl, ?_, ?_, ?_⟩
  · intro s p h; exact getId_lookup_none h
  · intro s names p
    have h1 : lookupA (getId p s).2.ids p = some (getId p s).1 := getId_lookup_self p s
    have h2 : lookupA (runGetIds names (getId p s).2).ids p = some (getId p s).1 :=
      runGetIds_mono names h1
    rw [getId_lookup_some h2]
  · intro names p q i j hpq hp hq
    have hWF : WFIds (runGetIds names initIdState) := runGetIds_WF names initIdState_WF
    intro he
    subst he
    exact hpq (hWF.2 _ _ _ hp hq)

theorem contains_eq (l : List String) (x : String) : l.contains x = decide (x ∈ l) := by
  by_cases h : x ∈ l
  · rw [decide_eq_true h]
    exact List.elem_iff.mpr h
  · rw [decide_eq_false h]
    cases hc : l.contains x
    · rfl
    · exact absurd (List.elem_iff.mp hc) h

theorem getImportsGo_mem (self : String) (l : List String) :
    ∀ (found : List String) (x : String),
    x ∈ getImportsGo self l found ↔ (x ∈ l ∧ x ≠ self ∧ x ∉ found) := by
  induction l with
  | nil => intro found x; simp [getImportsGo]
  | cons imp rest ih =>
    intro found x
    by_cases h1 : imp = self
    · subst h1
      simp only [getImportsGo]
      rw [if_pos trivial, ih found x]
      constructor
      · rintro ⟨hx, hs, hf⟩
        exact ⟨List.mem_cons_of_mem _ hx, hs, hf⟩
      · rintro ⟨hx, hs, hf⟩
        rcases List.mem_cons.mp hx with he | hx'
        · exact absurd he hs
        · exact ⟨hx', hs, hf⟩
    · by_cases h2 : imp ∈ found
      · have hc : found.contains imp = true := by
          rw [contains_eq]; exact decide_eq_true h2
        simp only [getImportsGo]
        rw [if_neg h1, if_pos hc, ih found x]
        constructor
        · rintro ⟨hx, hs, hf⟩
          exact ⟨List.mem_cons_of_mem _ hx, hs, hf⟩
        · rintro ⟨hx, hs, hf⟩
          rcases List.mem_cons.mp hx with he | hx'
          · subst he; exact absurd h2 hf
          · exact ⟨hx', hs, hf⟩
      · have hc : ¬(found.contains imp = true) := by
          rw [contains_eq]; exact fun hd => h2 (of_decide_eq_true hd)
        simp only [getImportsGo]
        rw [if_neg h1, if_neg hc, List.mem_cons, ih (imp :: found) x]
        constructor
        · rintro (he | ⟨hx, hs, hf⟩)
          · subst he; exact ⟨List.mem_cons_self _ _, h1, h2⟩
          · exact ⟨List.mem_cons_of_mem _ hx, hs,
              fun hxf => hf (List.mem_cons_of_mem _ hxf)⟩
        · rintro ⟨hx, hs, hf⟩
          rcases List.mem_cons.mp hx with he | hx'
          · exact Or.inl he
          · by_cases hxi : x = imp
            · exact Or.inl hxi
            · refine Or.inr ⟨hx', hs, fun hxm => ?_⟩
              rcases List.mem_cons.mp hxm with h | h
              · exact hxi h
              · exact hf h

theorem getImportsGo_nodup (self : String) (l : List String) :
    ∀ found, (getImportsGo self l found).Nodup := by
  induction l with
  | nil => intro found; simp [getImportsGo]
  | cons imp rest ih =>
    intro found
    simp only [getImportsGo]
    split
    · exact ih found
    · split
      · exact ih found
      · refine List.nodup_cons.mpr ⟨fun hmem => ?_, ih (imp :: found)⟩
        exact ((getImportsGo_mem self rest (imp :: found) imp).mp hmem).2.2
          (List.mem_cons_self _ _)

theorem foldl_keepFirst_eq (self : String) (l : List String) :
    ∀ (acc found : List String), (∀ y, y ∈ acc ↔ y ∈ found) →
    List.foldl (fun acc x => if acc.contains x then acc else acc ++ [x]) acc
      (l.filter (fun x => x != self))
      = acc ++ getImportsGo self l found := by
  induction l with
  | nil => intro acc found _; simp [getImportsGo]
  | cons imp rest ih =>
    intro acc found h
    by_cases h1 : imp = self
    · subst h1
      rw [show List.filter (fun x => x != imp) (imp :: rest)
            = List.filter (fun x => x != imp) rest by simp]
      simp only [getImportsGo]
      rw [if_pos trivial]
      exact ih acc found h
    · rw [show List.filter (fun x => x != self) (imp :: rest)
            = imp :: List.filter (fun x => x != self) rest by simp [h1],
          List.foldl_cons]
      by_cases h2 : imp ∈ found
      · have hacc : acc.contains imp = true := by
          rw [contains_eq]; exact decide_eq_true ((h imp).mpr h2)
        have hfnd : found.contains imp = true := by
          rw [contains_eq]; exact decide_eq_true h2
        rw [if_pos hacc]
        simp only [getImportsGo]
        rw [if_neg h1, if_pos hfnd]
        exact ih acc found h
      · have hacc : ¬(acc.contains imp = true) := by
          rw [contains_eq]; exact fun hd => h2 ((h imp).mp (of_decide_eq_true hd))
        have hfnd : ¬(found.contains imp = true) := by
          rw [contains_eq]; exact fun hd => h2 (of_decide_eq_true hd)
        rw [if_neg hacc]
        simp only [getImportsGo]
        rw [if_neg h1, if_neg hfnd]
        rw [ih (acc ++ [imp]) (imp :: found) (by
          intro y
          simp only [List.mem_append, List.mem_singleton, List.mem_cons, h y]
          tauto)]
        simp

theorem getImports_eq_keepFirst (cfg : Config) (pkg : Package) :
    getImports cfg pkg = keepFirstOccurrences
      (List.filter (fun x => x != pkg.importPath)
        (pkg.imports ++ (if cfg.includeTests then pkg.testImports ++ pkg.xtestImports else []))) := by
  simp only [getImports, keepFirstOccurrences]
  rw [foldl_keepFirst_eq pkg.importPath _ [] [] (by intro y; simp)]
  simp

theorem bool_eq_false {b : Bool} (h : ¬(b = true)) : b = false := by
  cases b
  · rfl
  · exact absurd rfl h

/-! ### Render-loop lemmas -/

theorem renderEdges_ids_mono (cfg : Config) (store : List (String × Package))
    (pkgId : Nat) (imps : List String) : ∀ (s : IdState) (q : String) (j : Nat),
    lookupA s.ids q = some j →
    lookupA (renderEdges cfg store pkgId imps s).2.ids q = some j := by
  induction imps with
  | nil => intro s q j h; exact h
  | cons imp rest ih =>
    intro s q j h
    simp only [renderEdges]
    cases hl : lookupA store imp with
    | none => exact ih s q j h
    | some impPkg =>
      dsimp only
      by_cases hi : isIgnored cfg impPkg = true
      · rw [if_pos hi]; exact ih s q j h
      · rw [if_neg hi]
        exact ih _ q j (getId_mono imp h)

theorem renderEdges_WF (cfg : Config) (store : List (String × Package))
    (pkgId : Nat) (imps : List String) : ∀ (s : IdState), WFIds s →
    WFIds (renderEdges cfg store pkgId imps s).2 := by
  induction imps with
  | nil => intro s h; exact h
  | cons imp rest ih =>
    intro s h
    simp only [renderEdges]
    cases hl : lookupA store imp with
    | none => exact ih s h
    | some impPkg =>
      dsimp only
      by_cases hi : isIgnored cfg impPkg = true
      · rw [if_pos hi]; exact ih s h
      · rw [if_neg hi]
        exact ih _ (getId_WF imp h)

theorem renderEdges_shape (cfg : Config) (store : List (String × Package))
    (pkgId : Nat) (imps : List String) : ∀ (s : IdState) (e : Nat × Nat),
    e ∈ (renderEdges cfg store pkgId imps s).1 →
    e.1 = pkgId ∧ ∃ imp impPkg, imp ∈ imps ∧ lookupA store imp = some impPkg ∧
      isIgnored cfg impPkg = false ∧
      lookupA (renderEdges cfg store pkgId imps s).2.ids imp = some e.2 := by
  induction imps with
  | nil => intro s e he; simp [renderEdges] at he
  | cons imp rest ih =>
    intro s e he
    simp only [renderEdges] at he ⊢
    cases hl : lookupA store imp with
    | none =>
      rw [hl] at he
      obtain ⟨h1, imp', impPkg', hm, hlk, hig, hid⟩ := ih s e he
      exact ⟨h1, imp', impPkg', List.mem_cons_of_mem _ hm, hlk, hig, hid⟩
    | some impPkg =>
      rw [hl] at he
      dsimp only at he ⊢
      by_cases hi : isIgnored cfg impPkg = true
      · rw [if_pos hi] at he ⊢
        obtain ⟨h1, imp', impPkg', hm, hlk, hig, hid⟩ := ih s e he
        exact ⟨h1, imp', impPkg', List.mem_cons_of_mem _ hm, hlk, hig, hid⟩
      · rw [if_neg hi] at he ⊢
        replace he : e ∈ (pkgId, (getId imp s).1)
            :: (renderEdges cfg store pkgId rest (getId imp s).2).1 := he
        rcases List.mem_cons.mp he with he1 | he2
        · subst he1
          refine ⟨rfl, imp, impPkg, List.mem_cons_self _ _, hl, bool_eq_false hi, ?_⟩
          exact renderEdges_ids_mono cfg store pkgId rest _ imp _ (getId_lookup_self imp s)
        · obtain ⟨h1, imp', impPkg', hm, hlk, hig, hid⟩ := ih _ e he2
          exact ⟨h1, imp', impPkg', List.mem_cons_of_mem _ hm, hlk, hig, hid⟩

theorem renderEdges_nodup (cfg : Config) (store : List (String × Package))
    (pkgId : Nat) (imps : List String) : ∀ (s : IdState), WFIds s → imps.Nodup →
    (renderEdges cfg store pkgId imps s).1.Nodup := by
  induction imps with
  | nil => intro s _ _; simp [renderEdges]
  | cons imp rest ih =>
    intro s hWF hnd
    simp only [renderEdges]
    cases hl : lookupA store imp with
    | none => exact ih s hWF hnd.of_cons
    | some impPkg =>
      dsimp only
      by_cases hi : isIgnored cfg impPkg = true
      · rw [if_pos hi]; exact ih s hWF hnd.of_cons
      · rw [if_neg hi]
        show ((pkgId, (getId imp s).1)
            :: (renderEdges cfg store pkgId rest (getId imp s).2).1).Nodup
        refine List.nodup_cons.mpr ⟨fun hmem => ?_, ih _ (getId_WF imp hWF) hnd.of_cons⟩
        obtain ⟨-, imp', impPkg', hm, -, -, hid⟩ :=
          renderEdges_shape cfg store pkgId rest _ _ hmem
        have hself : lookupA (renderEdges cfg store pkgId rest (getId imp s).2).2.ids imp
            = some (getId imp s).1 :=
          renderEdges_ids_mono cfg store pkgId rest _ imp _ (getId_lookup_self imp s)
        have hWF2 : WFIds (renderEdges cfg store pkgId rest (getId imp s).2).2 :=
          renderEdges_WF cfg store pkgId rest _ (getId_WF imp hWF)
        have heq : imp' = imp := hWF2.2 _ _ _ hid hself
        subst heq
        exact (List.nodup_cons.mp hnd).1 hm

theorem renderEdges_target_ne (cfg : Config) (store : List (String × Package))
    (pkgId : Nat) (imps : List String) (s : IdState) (nm : String) (pid : Nat)
    (hWF : WFIds s) (hnm : lookupA s.ids nm = some pid) (hnin : nm ∉ imps) :
    ∀ e ∈ (renderEdges cfg store pkgId imps s).1, e.2 ≠ pid := by
  intro e he hc
  obtain ⟨-, imp, impPkg, hm, -, -, hid⟩ := renderEdges_shape cfg store pkgId imps s e he
  rw [hc] at hid
  have h1 := renderEdges_ids_mono cfg store pkgId imps s nm pid hnm
  have hWF2 := renderEdges_WF cfg store pkgId imps s hWF
  have heq : imp = nm := hWF2.2 _ _ _ hid h1
  subst heq
  exact hnin hm

theorem renderLoop_ids_mono (cfg : Config) (store : List (String × Package))
    (entries : List (String × Package)) : ∀ (s : IdState) (q : String) (j : Nat),
    lookupA s.ids q = some j →
    lookupA (renderLoop cfg store entries s).2.2.ids q = some j := by
  induction entries with
  | nil => intro s q j h; exact h
  | cons kp rest ih =>
    obtain ⟨pkgName, pkg⟩ := kp
    intro s q j h
    simp only [renderLoop]
    by_cases hig : isIgnored cfg pkg = true
    · rw [if_pos hig]
      exact ih _ q j (getId_mono pkgName h)
    · rw [if_neg hig]
      by_cases hgr : (pkg.goroot && !cfg.delveGoroot) = true
      · rw [if_pos hgr]
        exact ih _ q j (getId_mono pkgName h)
      · rw [if_neg hgr]
        exact ih _ q j (renderEdges_ids_mono cfg store _ _ _ q j (getId_mono pkgName h))

theorem renderLoop_WF (cfg : Config) (store : List (String × Package))
    (entries : List (String × Package)) : ∀ (s : IdState), WFIds s →
    WFIds (renderLoop cfg store entries s).2.2 := by
  induction entries with
  | nil => intro s h; exact h
  | cons kp rest ih =>
    obtain ⟨pkgName, pkg⟩ := kp
    intro s h
    simp only [renderLoop]
    by_cases hig : isIgnored cfg pkg = true
    · rw [if_pos hig]
      exact ih _ (getId_WF pkgName h)
    · rw [if_neg hig]
      by_cases hgr : (pkg.goroot && !cfg.delveGoroot) = true
      · rw [if_pos hgr]
        exact ih _ (getId_WF pkgName h)
      · rw [if_neg hgr]
        exact ih _ (renderEdges_WF cfg store _ _ _ (getId_WF pkgName h))

theorem renderLoop_node_exists (cfg : Config) (store : List (String × Package))
    (entries : List (String × Package)) : ∀ (s : IdState) (k : String) (p : Package),
    (k, p) ∈ entries → isIgnored cfg p = false →
    ∃ i, lookupA (renderLoop cfg store entries s).2.2.ids k = some i
      ∧ i ∈ (renderLoop cfg store entries s).1.map (fun nd => nd.1) := by
  induction entries with
  | nil => intro s k p hm _; exact absurd hm (List.not_mem_nil _)
  | cons kp rest ih =>
    obtain ⟨pkgName, pkg⟩ := kp
    intro s k p hm hig
    rcases List.mem_cons.mp hm with he | hm'
    · injection he with h1 h2
      subst h1
      subst h2
      simp only [renderLoop]
      rw [if_neg (by rw [hig]; exact Bool.false_ne_true)]
      have hself : lookupA (getId k s).2.ids k = some (getId k s).1 := getId_lookup_self k s
      by_cases hgr : (p.goroot && !cfg.delveGoroot) = true
      · rw [if_pos hgr]
        refine ⟨(getId k s).1, renderLoop_ids_mono cfg store rest _ k _ hself, ?_⟩
        dsimp only
        exact List.mem_cons_self _ _
      · rw [if_neg hgr]
        refine ⟨(getId k s).1,
          renderLoop_ids_mono cfg store rest _ k _
            (renderEdges_ids_mono cfg store _ _ _ k _ hself), ?_⟩
        dsimp only
        exact List.mem_cons_self _ _
    · simp only [renderLoop]
      by_cases hih : isIgnored cfg pkg = true
      · rw [if_pos hih]
        exact ih _ k p hm' hig
      · rw [if_neg hih]
        by_cases hgr : (pkg.goroot && !cfg.delveGoroot) = true
        · rw [if_pos hgr]
          obtain ⟨i, hlk, hmem⟩ := ih _ k p hm' hig
          exact ⟨i, hlk, List.mem_cons_of_mem _ hmem⟩
        · rw [if_neg hgr]
          obtain ⟨i, hlk, hmem⟩ := ih _ k p hm' hig
          exact ⟨i, hlk, List.mem_cons_of_mem _ hmem⟩

theorem renderLoop_edges (cfg : Config) (store : List (String × Package))
    (entries : List (String × Package)) : ∀ (s : IdState) (e : Nat × Nat),
    e ∈ (renderLoop cfg store entries s).2.1 →
    e.1 ∈ (renderLoop cfg store entries s).1.map (fun nd => nd.1)
    ∧ ∃ imp impPkg, lookupA store imp = some impPkg ∧ isIgnored cfg impPkg = false
        ∧ lookupA (renderLoop cfg store entries s).2.2.ids imp = some e.2 := by
  induction entries with
  | nil => intro s e he; exact absurd he (List.not_mem_nil _)
  | cons kp rest ih =>
    obtain ⟨pkgName, pkg⟩ := kp
    intro s e he
    simp only [renderLoop] at he ⊢
    by_cases hih : isIgnored cfg pkg = true
    · rw [if_pos hih] at he ⊢
      exact ih _ e he
    · rw [if_neg hih] at he ⊢
      by_cases hgr : (pkg.goroot && !cfg.delveGoroot) = true
      · rw [if_pos hgr] at he ⊢
        obtain ⟨h1, rest'⟩ := ih _ e he
        exact ⟨List.mem_cons_of_mem _ h1, rest'⟩
      · rw [if_neg hgr] at he ⊢
        replace he : e ∈ (renderEdges cfg store (getId pkgName s).1 (getImports cfg pkg)
              (getId pkgName s).2).1
            ++ (renderLoop cfg store rest (renderEdges cfg store (getId pkgName s).1
              (getImports cfg pkg) (getId pkgName s).2).2).2.1 := he
        rcases List.mem_append.mp he with he1 | he2
        · obtain ⟨hfst, imp, impPkg, -, hlk, hig', hid⟩ :=
            renderEdges_shape cfg store (getId pkgName s).1 (getImports cfg pkg) _ e he1
          refine ⟨?_, imp, impPkg, hlk, hig',
            renderLoop_ids_mono cfg store rest _ imp _ hid⟩
          rw [hfst]
          dsimp only
          exact List.mem_cons_self _ _
        · obtain ⟨h1, rest'⟩ := ih _ e he2
          exact ⟨List.mem_cons_of_mem _ h1, rest'⟩

/-- C10: the rendered output is closed over edge endpoints — every emitted
edge's source and target ids also occur as node ids in the same output. -/
theorem C10_output_closed_over_endpoints (cfg : Config)
    (store : List (String × Package)) (s : IdState) :
    ∀ e ∈ (renderLoop cfg store store s).2.1,
      e.1 ∈ (renderLoop cfg store store s).1.map (fun nd => nd.1)
      ∧ e.2 ∈ (renderLoop cfg store store s).1.map (fun nd => nd.1) := by
  intro e he
  obtain ⟨h1, imp, impPkg, hlk, hig, hid⟩ := renderLoop_edges cfg store store s e he
  refine ⟨h1, ?_⟩
  obtain ⟨i, hi, him⟩ := renderLoop_node_exists cfg store store s imp impPkg
    (lookupA_mem hlk) hig
  have : e.2 = i := by
    have := hid.symm.trans hi
    exact Option.some.inj this
  rwa [this]

/-- C10 witness: in the diamond store, the edge 0 → 1 has both endpoints
among the node ids. -/
theorem C10_output_closed_over_endpoints_witness :
    ((0, 1) ∈ (renderLoop exampleConfig
      [("app", examplePkg "app" false ["lib/a", "lib/b"]),
       ("lib/a", examplePkg "lib/a" false ["lib/b"]),
       ("lib/b", examplePkg "lib/b" false [])]
      [("app", examplePkg "app" false ["lib/a", "lib/b"]),
       ("lib/a", examplePkg "lib/a" false ["lib/b"]),
       ("lib/b", examplePkg "lib/b" false [])] initIdState).2.1)
    ∧ (0 ∈ (renderLoop exampleConfig
      [("app", examplePkg "app" false ["lib/a", "lib/b"]),
       ("lib/a", examplePkg "lib/a" false ["lib/b"]),
       ("lib/b", examplePkg "lib/b" false [])]
      [("app", examplePkg "app" false ["lib/a", "lib/b"]),
       ("lib/a", examplePkg "lib/a" false ["lib/b"]),
       ("lib/b", examplePkg "lib/b" false [])] initIdState).1.map (fun nd => nd.1)
      ∧ 1 ∈ (renderLoop exampleConfig
      [("app", examplePkg "app" false ["lib/a", "lib/b"]),
       ("lib/a", examplePkg "lib/a" false ["lib/b"]),
       ("lib/b", examplePkg "lib/b" false [])]
      [("app", examplePkg "app" false ["lib/a", "lib/b"]),
       ("lib/a", examplePkg "lib/a" false ["lib/b"]),
       ("lib/b", examplePkg "lib/b" false [])] initIdState).1.map (fun nd => nd.1)) :=
  ⟨by decide, C10_output_closed_over_endpoints exampleConfig
    [("app", examplePkg "app" false ["lib/a", "lib/b"]),
     ("lib/a", examplePkg "lib/a" false ["lib/b"]),
     ("lib/b", examplePkg "lib/b" false [])] initIdState (0, 1) (by decide)⟩

/-- C4: `getImports` removes the package's own import path and collapses
duplicates to the first occurrence; consequently the edges rendered for a
descriptor contain at most one edge per target and no self-loop. -/
theorem C4_at_most_one_edge_no_self_loop (cfg : Config) (pkg : Package)
    (store : List (String × Package)) (s : IdState) (pkgId : Nat)
    (hWF : WFIds s) (hpk : lookupA s.ids pkg.importPath = some pkgId) :
    (getImports cfg pkg).Nodup
    ∧ pkg.importPath ∉ getImports cfg pkg
    ∧ getImports cfg pkg = keepFirstOccurrences
        (List.filter (fun x => x != pkg.importPath)
          (pkg.imports ++ (if cfg.includeTests then pkg.testImports ++ pkg.xtestImports else [])))
    ∧ (renderEdges cfg store pkgId (getImports cfg pkg) s).1.Nodup
    ∧ ∀ e ∈ (renderEdges cfg store pkgId (getImports cfg pkg) s).1, e ≠ (pkgId, pkgId) := by
  have h2 : pkg.importPath ∉ getImports cfg pkg := by
    intro hmem
    exact ((getImportsGo_mem _ _ _ _).mp hmem).2.1 rfl
  have h1 : (getImports cfg pkg).Nodup := getImportsGo_nodup _ _ _
  refine ⟨h1, h2, getImports_eq_keepFirst cfg pkg,
    renderEdges_nodup cfg store pkgId _ s hWF h1, ?_⟩
  intro e he hc
  exact renderEdges_target_ne cfg store pkgId (getImports cfg pkg) s pkg.importPath pkgId
    hWF hpk h2 e he (by rw [hc])

/-- C4 witness: a package importing "q" twice and itself once, rendered
against a store containing "q". -/
theorem C4_at_most_one_edge_no_self_loop_witness :
    (getImports exampleConfig (examplePkg "p" false ["q", "q", "p"])).Nodup
    ∧ (examplePkg "p" false ["q", "q", "p"]).importPath
        ∉ getImports exampleConfig (examplePkg "p" false ["q", "q", "p"])
    ∧ getImports exampleConfig (examplePkg "p" false ["q", "q", "p"]) = keepFirstOccurrences
        (List.filter (fun x => x != (examplePkg "p" false ["q", "q", "p"]).importPath)
          ((examplePkg "p" false ["q", "q", "p"]).imports ++
            (if exampleConfig.includeTests then
              (examplePkg "p" false ["q", "q", "p"]).testImports
                ++ (examplePkg "p" false ["q", "q", "p"]).xtestImports else [])))
    ∧ (renderEdges exampleConfig [("q", examplePkg "q" false [])] 0
        (getImports exampleConfig (examplePkg "p" false ["q", "q", "p"]))
        (getId "p" initIdState).2).1.Nodup
    ∧ ∀ e ∈ (renderEdges exampleConfig [("q", examplePkg "q" false [])] 0
        (getImports exampleConfig (examplePkg "p" false ["q", "q", "p"]))
        (getId "p" initIdState).2).1, e ≠ (0, 0) :=
  C4_at_most_one_edge_no_self_loop exampleConfig (examplePkg "p" false ["q", "q", "p"])
    [("q", examplePkg "q" false [])] (getId "p" initIdState).2 0
    (getId_WF "p" initIdState_WF) (by decide)

/-- C3 witness: in the run `["a", "b", "a"]` started from the initial state,
"a" keeps its id 0 on re-query and "b"'s id 1 differs from it. -/
theorem C3_getId_injective_stable_witness :
    (getId "a" (runGetIds ["b"] (getId "a" initIdState).2)).1 = (getId "a" initIdState).1
    ∧ (0 : Nat) ≠ 1 := by
  refine ⟨C3_getId_injective_stable.2.2.1 initIdState ["b"] "a", ?_⟩
  exact C3_getId_injective_stable.2.2.2 ["a", "b"] "a" "b" 0 1
    (by decide) (by decide) (by decide)

/-! ### Resolver step lemmas -/

theorem processPackage_exact_ignored (cfg : Config)
    (provider : String → Except String Package) (n : Nat) (pkgName : String) (s : St)
    (h : cfg.ignored.contains pkgName = true) :
    processPackage cfg provider (n + 1) pkgName s = (s, Except.ok ()) := by
  simp only [processPackage]
  rw [if_pos h]

theorem processPackage_provider_error (cfg : Config)
    (provider : String → Except String Package) (n : Nat) (pkgName : String) (s : St)
    (c : String) (h1 : ¬(cfg.ignored.contains pkgName = true))
    (h2 : provider pkgName = Except.error c) :
    processPackage cfg provider (n + 1) pkgName s
      = ({ s with log := s.log ++ [pkgName] },
         Except.error ("failed to import " ++ pkgName ++ ": " ++ c)) := by
  simp only [processPackage]
  rw [if_neg h1, h2]

theorem processPackage_filtered (cfg : Config)
    (provider : String → Except String Package) (n : Nat) (pkgName : String) (s : St)
    (pkg : Package) (h1 : ¬(cfg.ignored.contains pkgName = true))
    (h2 : provider pkgName = Except.ok pkg) (h3 : isIgnored cfg pkg = true) :
    processPackage cfg provider (n + 1) pkgName s
      = ({ s with log := s.log ++ [pkgName] }, Except.ok ()) := by
  simp only [processPackage]
  rw [if_neg h1, h2]
  dsimp only
  rw [if_pos h3]

theorem processPackage_goroot_leaf (cfg : Config)
    (provider : String → Except String Package) (n : Nat) (pkgName : String) (s : St)
    (pkg : Package) (h1 : ¬(cfg.ignored.contains pkgName = true))
    (h2 : provider pkgName = Except.ok pkg) (h3 : isIgnored cfg pkg = false)
    (h4 : (pkg.goroot && !cfg.delveGoroot) = true) :
    processPackage cfg provider (n + 1) pkgName s
      = (⟨insertA s.pkgs pkg.importPath pkg, s.log ++ [pkgName]⟩, Except.ok ()) := by
  simp only [processPackage]
  rw [if_neg h1, h2]
  dsimp only
  rw [if_neg (by rw [h3]; exact Bool.false_ne_true), if_pos h4]

theorem processPackage_expand (cfg : Config)
    (provider : String → Except String Package) (n : Nat) (pkgName : String) (s : St)
    (pkg : Package) (h1 : ¬(cfg.ignored.contains pkgName = true))
    (h2 : provider pkgName = Except.ok pkg) (h3 : isIgnored cfg pkg = false)
    (h4 : (pkg.goroot && !cfg.delveGoroot) = false) :
    processPackage cfg provider (n + 1) pkgName s
      = processImports (processPackage cfg provider n) (getImports cfg pkg)
          ⟨insertA s.pkgs pkg.importPath pkg, s.log ++ [pkgName]⟩ := by
  simp only [processPackage]
  rw [if_neg h1, h2]
  dsimp only
  rw [if_neg (by rw [h3]; exact Bool.false_ne_true),
    if_neg (by rw [h4]; exact Bool.false_ne_true)]

theorem processImports_skip (step : String → St → St × Except String Unit)
    (imp : String) (rest : List String) (s : St) (q : Package)
    (h : lookupA s.pkgs imp = some q) :
    processImports step (imp :: rest) s = processImports step rest s := by
  simp only [processImports]
  rw [h]

theorem processImports_step_ok (step : String → St → St × Except String Unit)
    (imp : String) (rest : List String) (s s' : St) (u : Unit)
    (h : lookupA s.pkgs imp = none) (h2 : step imp s = (s', Except.ok u)) :
    processImports step (imp :: rest) s = processImports step rest s' := by
  simp only [processImports]
  rw [h, h2]

theorem processImports_step_error (step : String → St → St × Except String Unit)
    (imp : String) (rest : List String) (s s' : St) (e : String)
    (h : lookupA s.pkgs imp = none) (h2 : step imp s = (s', Except.error e)) :
    processImports step (imp :: rest) s = (s', Except.error e) := by
  simp only [processImports]
  rw [h, h2]

/-- C8: a root whose descriptor has an empty import list (regular and test)
renders to exactly one node statement and zero edge statements. -/
theorem C8_no_imports_one_node_zero_edges (cfg : Config)
    (provider : String → Except String Package) (n : Nat) (root : String) (pkg : Package)
    (h1 : cfg.ignored.contains root = false) (h2 : provider root = Except.ok pkg)
    (h3 : isIgnored cfg pkg = false) (h4 : pkg.imports = [])
    (h5 : pkg.testImports = []) (h6 : pkg.xtestImports = []) :
    mainRun cfg provider (n + 1) root
      = Except.ok ([(0, pkg.importPath, colorOf pkg)], []) := by
  have h1' : ¬(cfg.ignored.contains root = true) := by
    rw [h1]; exact Bool.false_ne_true
  have hgi : getImports cfg pkg = [] := by
    unfold getImports
    rw [h4, h5, h6]
    cases cfg.includeTests <;> simp [getImportsGo]
  have hst : processPackage cfg provider (n + 1) root initSt
      = (⟨[(pkg.importPath, pkg)], [root]⟩, Except.ok ()) := by
    by_cases hgr : (pkg.goroot && !cfg.delveGoroot) = true
    · rw [processPackage_goroot_leaf cfg provider n root initSt pkg h1' h2 h3 hgr]
      rfl
    · rw [processPackage_expand cfg provider n root initSt pkg h1' h2 h3 (bool_eq_false hgr)]
      rw [hgi]
      rfl
  have hrl : renderLoop cfg [(pkg.importPath, pkg)] [(pkg.importPath, pkg)] initIdState
      = ([(0, pkg.importPath, colorOf pkg)], [], ⟨[(pkg.importPath, 0)], 1⟩) := by
    simp only [renderLoop]
    rw [if_neg (by rw [h3]; exact Bool.false_ne_true)]
    by_cases hgr : (pkg.goroot && !cfg.delveGoroot) = true
    · rw [if_pos hgr]
      rfl
    · rw [if_neg hgr, hgi]
      rfl
  unfold mainRun
  rw [hst]
  dsimp only
  rw [hrl]

/-- C8 witness: the single-package provider yields one node and no edges. -/
theorem C8_no_imports_one_node_zero_edges_witness :
    mainRun exampleConfig exampleProviderSingle 9 "a"
      = Except.ok ([(0, (examplePkg "a" false []).importPath,
          colorOf (examplePkg "a" false []))], []) :=
  C8_no_imports_one_node_zero_edges exampleConfig exampleProviderSingle 8 "a"
    (examplePkg "a" false []) (by decide) rfl (by decide) rfl rfl rfl

/-- C5: with standard-library expansion disabled, a standard-library package
is stored without recursing into its imports (the provider is queried only
for the package itself), the renderer emits its node but no outgoing edges,
and the standard-library scenario yields nodes for the root and each
standard-library import with edges only out of the root. -/
theorem C5_stdlib_pruning (cfg : Config) (provider : String → Except String Package)
    (n : Nat) (pkgName : String) (s : St) (pkg : Package)
    (store rest : List (String × Package)) (rs : IdState)
    (h1 : ¬(cfg.ignored.contains pkgName = true)) (h2 : provider pkgName = Except.ok pkg)
    (h3 : isIgnored cfg pkg = false) (h4 : (pkg.goroot && !cfg.delveGoroot) = true) :
    processPackage cfg provider (n + 1) pkgName s
      = (⟨insertA s.pkgs pkg.importPath pkg, s.log ++ [pkgName]⟩, Except.ok ())
    ∧ renderLoop cfg store ((pkgName, pkg) :: rest) rs
      = (((getId pkgName rs).1, pkgName, colorOf pkg)
          :: (renderLoop cfg store rest (getId pkgName rs).2).1,
         (renderLoop cfg store rest (getId pkgName rs).2).2.1,
         (renderLoop cfg store rest (getId pkgName rs).2).2.2)
    ∧ mainRun exampleConfig exampleProviderStd 9 "app"
      = Except.ok ([(0, "app", "paleturquoise"), (1, "fmt", "palegreen"),
          (2, "os", "palegreen")], [(0, 1), (0, 2)]) := by
  refine ⟨processPackage_goroot_leaf cfg provider n pkgName s pkg h1 h2 h3 h4, ?_, rfl⟩
  simp only [renderLoop]
  rw [if_neg (by rw [h3]; exact Bool.false_ne_true), if_pos h4]

/-- C5 witness: the standard-library package "fmt" under the default
configuration. -/
theorem C5_stdlib_pruning_witness :
    processPackage exampleConfig exampleProviderStd (8 + 1) "fmt" initSt
      = (⟨insertA initSt.pkgs (examplePkg "fmt" true ["errors"]).importPath
            (examplePkg "fmt" true ["errors"]), initSt.log ++ ["fmt"]⟩, Except.ok ())
    ∧ renderLoop exampleConfig [] [("fmt", examplePkg "fmt" true ["errors"])] initIdState
      = (((getId "fmt" initIdState).1, "fmt", colorOf (examplePkg "fmt" true ["errors"]))
          :: (renderLoop exampleConfig [] [] (getId "fmt" initIdState).2).1,
         (renderLoop exampleConfig [] [] (getId "fmt" initIdState).2).2.1,
         (renderLoop exampleConfig [] [] (getId "fmt" initIdState).2).2.2)
    ∧ mainRun exampleConfig exampleProviderStd 9 "app"
      = Except.ok ([(0, "app", "paleturquoise"), (1, "fmt", "palegreen"),
          (2, "os", "palegreen")], [(0, 1), (0, 2)]) :=
  C5_stdlib_pruning exampleConfig exampleProviderStd 8 "fmt" initSt
    (examplePkg "fmt" true ["errors"]) [] [] initIdState
    (by decide) rfl (by decide) (by decide)

/-- C6: a successfully loaded descriptor that fails the filter stops
resolution silently — no error, store unchanged, no recursion — and in the
diamond scenario an exact-match exclusion of "lib/b" removes its node and
the edges targeting it while leaving "app", "lib/a" and the edge between
them unchanged relative to the unfiltered run. -/
theorem C6_filtered_descriptor_prunes_silently (cfg : Config)
    (provider : String → Except String Package) (n : Nat) (pkgName : String) (s : St)
    (pkg : Package) (h1 : ¬(cfg.ignored.contains pkgName = true))
    (h2 : provider pkgName = Except.ok pkg) (h3 : isIgnored cfg pkg = true) :
    processPackage cfg provider (n + 1) pkgName s
      = ({ s with log := s.log ++ [pkgName] }, Except.ok ())
    ∧ mainRun exampleConfigExclude exampleProviderDiamond 9 "app"
      = Except.ok ([(0, "app", "paleturquoise"), (1, "lib/a", "paleturquoise")], [(0, 1)])
    ∧ mainRun exampleConfig exampleProviderDiamond 9 "app"
      = Except.ok ([(0, "app", "paleturquoise"), (1, "lib/a", "paleturquoise"),
          (2, "lib/b", "paleturquoise")], [(0, 1), (0, 2), (1, 2)]) :=
  ⟨processPackage_filtered cfg provider n pkgName s pkg h1 h2 h3, rfl, rfl⟩

/-- C6 witness: "lib/a" loaded successfully but rejected by a prefix
denylist entry "lib/". -/
theorem C6_filtered_descriptor_prunes_silently_witness :
    processPackage ⟨false, false, ["lib/"], [], ["C"], false⟩ exampleProviderDiamond
        (8 + 1) "lib/a" initSt
      = ({ initSt with log := initSt.log ++ ["lib/a"] }, Except.ok ())
    ∧ mainRun exampleConfigExclude exampleProviderDiamond 9 "app"
      = Except.ok ([(0, "app", "paleturquoise"), (1, "lib/a", "paleturquoise")], [(0, 1)])
    ∧ mainRun exampleConfig exampleProviderDiamond 9 "app"
      = Except.ok ([(0, "app", "paleturquoise"), (1, "lib/a", "paleturquoise"),
          (2, "lib/b", "paleturquoise")], [(0, 1), (0, 2), (1, 2)]) :=
  C6_filtered_descriptor_prunes_silently ⟨false, false, ["lib/"], [], ["C"], false⟩
    exampleProviderDiamond 8 "lib/a" initSt (examplePkg "lib/a" false ["lib/b"])
    (by decide) rfl (by decide)

/-- C7: a provider failure produces an error wrapping the offending path and
the cause, the error propagates unchanged through the import recursion and
through `mainRun` (which then emits no graph), and the nested-failure
scenario aborts the whole run with the wrapped message. -/
theorem C7_resolution_error_aborts (cfg : Config)
    (provider : String → Except String Package) (n : Nat) (pkgName : String) (s : St)
    (c : String) (h1 : ¬(cfg.ignored.contains pkgName = true))
    (h2 : provider pkgName = Except.error c) :
    processPackage cfg provider (n + 1) pkgName s
      = ({ s with log := s.log ++ [pkgName] },
         Except.error ("failed to import " ++ pkgName ++ ": " ++ c))
    ∧ (∀ (step : String → St → St × Except String Unit) (imp : String)
        (rest : List String) (t t' : St) (e : String),
        lookupA t.pkgs imp = none → step imp t = (t', Except.error e) →
        processImports step (imp :: rest) t = (t', Except.error e))
    ∧ (∀ (fuel : Nat) (root : String) (st' : St) (e : String),
        processPackage cfg provider fuel root initSt = (st', Except.error e) →
        mainRun cfg provider fuel root = Except.error e)
    ∧ mainRun exampleConfig exampleProviderErr 9 "app"
      = Except.error "failed to import bad: cannot find package bad" := by
  refine ⟨processPackage_provider_error cfg provider n pkgName s c h1 h2, ?_, ?_, rfl⟩
  · intro step imp rest t t' e hl hs
    exact processImports_step_error step imp rest t t' e hl hs
  · intro fuel root st' e hp
    unfold mainRun
    rw [hp]

/-- C7 witness: the failing provider at "bad". -/
theorem C7_resolution_error_aborts_witness :
    processPackage exampleConfig exampleProviderErr (8 + 1) "bad" initSt
      = ({ initSt with log := initSt.log ++ ["bad"] },
         Except.error ("failed to import " ++ "bad" ++ ": " ++ "cannot find package bad"))
    ∧ (∀ (step : String → St → St × Except String Unit) (imp : String)
        (rest : List String) (t t' : St) (e : String),
        lookupA t.pkgs imp = none → step imp t = (t', Except.error e) →
        processImports step (imp :: rest) t = (t', Except.error e))
    ∧ (∀ (fuel : Nat) (root : String) (st' : St) (e : String),
        processPackage exampleConfig exampleProviderErr fuel root initSt
          = (st', Except.error e) →
        mainRun exampleConfig exampleProviderErr fuel root = Except.error e)
    ∧ mainRun exampleConfig exampleProviderErr 9 "app"
      = Except.error "failed to import bad: cannot find package bad" :=
  C7_resolution_error_aborts exampleConfig exampleProviderErr 8 "bad" initSt
    "cannot find package bad" (by decide) rfl

/-! ### Store-invariant lemmas (C9) -/

theorem insertA_mem {α : Type} {l : List (String × α)} {k : String} {v : α} :
    ∀ kp ∈ insertA l k v, kp ∈ l ∨ kp = (k, v) := by
  induction l with
  | nil =>
    intro kp hm
    rcases List.mem_singleton.mp hm with h
    exact Or.inr h
  | cons kw rest ih =>
    obtain ⟨k0, w⟩ := kw
    intro kp hm
    simp only [insertA] at hm
    by_cases h0 : k0 = k
    · rw [if_pos h0] at hm
      rcases List.mem_cons.mp hm with h | h
      · exact Or.inr h
      · exact Or.inl (List.mem_cons_of_mem _ h)
    · rw [if_neg h0] at hm
      rcases List.mem_cons.mp hm with h | h
      · exact Or.inl (h ▸ List.mem_cons_self _ _)
      · rcases ih kp h with h' | h'
        · exact Or.inl (List.mem_cons_of_mem _ h')
        · exact Or.inr h'

theorem processImports_preserve (step : String → St → St × Except String Unit)
    (P : List (String × Package) → Prop)
    (hstep : ∀ imp t, P t.pkgs → P (step imp t).1.pkgs) :
    ∀ (imps : List String) (t : St), P t.pkgs → P (processImports step imps t).1.pkgs := by
  intro imps
  induction imps with
  | nil => intro t h; exact h
  | cons imp rest ih =>
    intro t h
    simp only [processImports]
    cases hl : lookupA t.pkgs imp with
    | some q => exact ih t h
    | none =>
      have h' : P (step imp t).1.pkgs := hstep imp t h
      cases hres : step imp t with
      | mk t' r =>
        rw [hres] at h'
        cases r with
        | ok u => exact ih t' h'
        | error e => exact h'

theorem processPackage_preserves_StoreInv (cfg : Config)
    (provider : String → Except String Package) :
    ∀ (n : Nat) (p : String) (s : St), StoreInv cfg s.pkgs →
    StoreInv cfg (processPackage cfg provider n p s).1.pkgs := by
  intro n
  induction n with
  | zero => intro p s h; exact h
  | succ n ih =>
    intro p s h
    simp only [processPackage]
    by_cases hc : cfg.ignored.contains p = true
    · rw [if_pos hc]; exact h
    · rw [if_neg hc]
      cases hp : provider p with
      | error e => exact h
      | ok pkg =>
        dsimp only
        by_cases hig : isIgnored cfg pkg = true
        · rw [if_pos hig]; exact h
        · rw [if_neg hig]
          have h2 : StoreInv cfg (insertA s.pkgs pkg.importPath pkg) := by
            intro kp hm
            rcases insertA_mem kp hm with h' | h'
            · exact h kp h'
            · rw [h']
              exact bool_eq_false hig
          by_cases hgr : (pkg.goroot && !cfg.delveGoroot) = true
          · rw [if_pos hgr]; exact h2
          · rw [if_neg hgr]
            exact processImports_preserve _ _ (fun imp t ht => ih imp t ht) _ _ h2

theorem renderLoop_no_skip (cfg : Config) (store : List (String × Package)) :
    ∀ (entries : List (String × Package)) (s : IdState),
    (∀ kp ∈ entries, isIgnored cfg kp.2 = false) →
    (renderLoop cfg store entries s).1.length = entries.length := by
  intro entries
  induction entries with
  | nil => intro s _; rfl
  | cons kp rest ih =>
    obtain ⟨pkgName, pkg⟩ := kp
    intro s hall
    have hig : isIgnored cfg pkg = false := hall (pkgName, pkg) (List.mem_cons_self _ _)
    have hrest : ∀ kp ∈ rest, isIgnored cfg kp.2 = false :=
      fun kp hm => hall kp (List.mem_cons_of_mem _ hm)
    simp only [renderLoop]
    rw [if_neg (by rw [hig]; exact Bool.false_ne_true)]
    by_cases hgr : (pkg.goroot && !cfg.delveGoroot) = true
    · rw [if_pos hgr]
      simp only [List.length_cons]
      rw [ih _ hrest]
    · rw [if_neg hgr]
      simp only [List.length_cons]
      rw [ih _ hrest]

theorem renderEdges_no_drop (cfg : Config) (store : List (String × Package))
    (pkgId : Nat) (hst : StoreInv cfg store) :
    ∀ (imps : List String) (s : IdState),
    (renderEdges cfg store pkgId imps s).1.length
      = imps.countP (fun i => (lookupA store i).isSome) := by
  intro imps
  induction imps with
  | nil => intro s; rfl
  | cons imp rest ih =>
    intro s
    simp only [renderEdges, List.countP_cons]
    cases hl : lookupA store imp with
    | none =>
      dsimp only
      rw [ih s]
      simp
    | some q =>
      have hig : isIgnored cfg q = false := hst (imp, q) (lookupA_mem hl)
      dsimp only
      rw [if_neg (show ¬(isIgnored cfg q = true) by rw [hig]; exact Bool.false_ne_true)]
      simp only [List.length_cons]
      rw [ih]
      simp

/-- C9: the resolver stores only descriptors that pass the filter, so under
one fixed configuration every stored descriptor satisfies
`isIgnored = false`; hence the renderer skips no stored entry (one node per
entry) and the edge-target check drops a target only when it is absent from
the store, never because a stored target is excluded. -/
theorem C9_store_only_unfiltered (cfg : Config)
    (provider : String → Except String Package) (n : Nat) (p : String) (s : St)
    (store entries : List (String × Package)) (rs : IdState) (pkgId : Nat)
    (imps : List String) (hs : StoreInv cfg s.pkgs) (hst : StoreInv cfg store)
    (hentries : ∀ kp ∈ entries, isIgnored cfg kp.2 = false) :
    StoreInv cfg (processPackage cfg provider n p s).1.pkgs
    ∧ (renderLoop cfg store entries rs).1.length = entries.length
    ∧ (renderEdges cfg store pkgId imps rs).1.length
        = imps.countP (fun i => (lookupA store i).isSome) :=
  ⟨processPackage_preserves_StoreInv cfg provider n p s hs,
   renderLoop_no_skip cfg store entries rs hentries,
   renderEdges_no_drop cfg store pkgId hst imps rs⟩

/-- C9 witness: the diamond run from the empty store, rendered over the
resulting three-entry store. -/
theorem C9_store_only_unfiltered_witness :
    StoreInv exampleConfig
      (processPackage exampleConfig exampleProviderDiamond 9 "app" initSt).1.pkgs
    ∧ (renderLoop exampleConfig
        [("app", examplePkg "app" false ["lib/a", "lib/b"]),
         ("lib/a", examplePkg "lib/a" false ["lib/b"]),
         ("lib/b", examplePkg "lib/b" false [])]
        [("app", examplePkg "app" false ["lib/a", "lib/b"]),
         ("lib/a", examplePkg "lib/a" false ["lib/b"]),
         ("lib/b", examplePkg "lib/b" false [])] initIdState).1.length
      = [("app", examplePkg "app" false ["lib/a", "lib/b"]),
         ("lib/a", examplePkg "lib/a" false ["lib/b"]),
         ("lib/b", examplePkg "lib/b" false [])].length
    ∧ (renderEdges exampleConfig
        [("app", examplePkg "app" false ["lib/a", "lib/b"]),
         ("lib/a", examplePkg "lib/a" false ["lib/b"]),
         ("lib/b", examplePkg "lib/b" false [])] 0
        ["lib/a", "missing"] initIdState).1.length
      = ["lib/a", "missing"].countP (fun i => (lookupA
        [("app", examplePkg "app" false ["lib/a", "lib/b"]),
         ("lib/a", examplePkg "lib/a" false ["lib/b"]),
         ("lib/b", examplePkg "lib/b" false [])] i).isSome) :=
  C9_store_only_unfiltered exampleConfig exampleProviderDiamond 9 "app" initSt
    [("app", examplePkg "app" false ["lib/a", "lib/b"]),
     ("lib/a", examplePkg "lib/a" false ["lib/b"]),
     ("lib/b", examplePkg "lib/b" false [])]
    [("app", examplePkg "app" false ["lib/a", "lib/b"]),
     ("lib/a", examplePkg "lib/a" false ["lib/b"]),
     ("lib/b", examplePkg "lib/b" false [])] initIdState 0 ["lib/a", "missing"]
    (by intro kp hm; cases hm) (by unfold StoreInv; decide) (by decide)

/-! ### Resolver monotonicity and idempotence (C2) -/

theorem insertA_consistent (provider : String → Except String Package)
    {s : List (String × Package)} {p : String} {pkg : Package}
    (hcons : ConsistentStore provider s) (hp : provider p = Except.ok pkg)
    (hip : pkg.importPath = p) :
    ConsistentStore provider (insertA s pkg.importPath pkg) := by
  intro k v hv
  rw [lookupA_insertA] at hv
  by_cases hk : pkg.importPath = k
  · rw [if_pos hk] at hv
    cases hv
    rw [← hk, hip]
    exact hp
  · rw [if_neg hk] at hv
    exact hcons k v hv

theorem insertA_mono_binding (provider : String → Except String Package)
    {s : List (String × Package)} {p : String} {pkg : Package}
    (hcons : ConsistentStore provider s) (hp : provider p = Except.ok pkg)
    (hip : pkg.importPath = p) :
    ∀ k v, lookupA s k = some v → lookupA (insertA s pkg.importPath pkg) k = some v := by
  intro k v hv
  rw [lookupA_insertA]
  by_cases hk : pkg.importPath = k
  · rw [if_pos hk]
    have h1 : provider k = Except.ok v := hcons k v hv
    rw [← hk, hip, hp] at h1
    injection h1 with h1'
    rw [h1']
  · rw [if_neg hk]
    exact hv

theorem processImports_mono_consistent (provider : String → Except String Package)
    (step : String → St → St × Except String Unit)
    (hstep : ∀ imp t, ConsistentStore provider t.pkgs →
      ConsistentStore provider (step imp t).1.pkgs
      ∧ ∀ k v, lookupA t.pkgs k = some v → lookupA (step imp t).1.pkgs k = some v) :
    ∀ (imps : List String) (t : St), ConsistentStore provider t.pkgs →
      ConsistentStore provider (processImports step imps t).1.pkgs
      ∧ ∀ k v, lookupA t.pkgs k = some v →
          lookupA (processImports step imps t).1.pkgs k = some v := by
  intro imps
  induction imps with
  | nil => intro t h; exact ⟨h, fun _ _ hv => hv⟩
  | cons imp rest ih =>
    intro t h
    simp only [processImports]
    cases hl : lookupA t.pkgs imp with
    | some q => exact ih t h
    | none =>
      obtain ⟨hc1, hm1⟩ := hstep imp t h
      cases hres : step imp t with
      | mk t1 r =>
        rw [hres] at hc1 hm1
        cases r with
        | ok u =>
          obtain ⟨hc2, hm2⟩ := ih t1 hc1
          exact ⟨hc2, fun k v hv => hm2 k v (hm1 k v hv)⟩
        | error e => exact ⟨hc1, hm1⟩

theorem processPackage_mono_consistent (cfg : Config)
    (provider : String → Except String Package) (hcan : CanonicalProvider provider) :
    ∀ (n : Nat) (p : String) (s : St), ConsistentStore provider s.pkgs →
      ConsistentStore provider (processPackage cfg provider n p s).1.pkgs
      ∧ ∀ k v, lookupA s.pkgs k = some v →
          lookupA (processPackage cfg provider n p s).1.pkgs k = some v := by
  intro n
  induction n with
  | zero => intro p s h; exact ⟨h, fun _ _ hv => hv⟩
  | succ n ih =>
    intro p s h
    simp only [processPackage]
    by_cases hc : cfg.ignored.contains p = true
    · rw [if_pos hc]; exact ⟨h, fun _ _ hv => hv⟩
    · rw [if_neg hc]
      cases hp : provider p with
      | error e => exact ⟨h, fun _ _ hv => hv⟩
      | ok pkg =>
        dsimp only
        by_cases hig : isIgnored cfg pkg = true
        · rw [if_pos hig]; exact ⟨h, fun _ _ hv => hv⟩
        · rw [if_neg hig]
          have hip : pkg.importPath = p := hcan p pkg hp
          have hc2 := insertA_consistent provider h hp hip
          have hm2 := insertA_mono_binding provider h hp hip
          by_cases hgr : (pkg.goroot && !cfg.delveGoroot) = true
          · rw [if_pos hgr]
            exact ⟨hc2, hm2⟩
          · rw [if_neg hgr]
            obtain ⟨hc3, hm3⟩ := processImports_mono_consistent provider _
              (fun imp t ht => ih imp t ht) (getImports cfg pkg)
              ⟨insertA s.pkgs pkg.importPath pkg, s.log ++ [p]⟩ hc2
            exact ⟨hc3, fun k v hv => hm3 k v (hm2 k v hv)⟩

theorem processPackage_not_stored (cfg : Config)
    (provider : String → Except String Package) (hcan : CanonicalProvider provider)
    (n : Nat) (imp : String) (s s1 : St) (hcons : ConsistentStore provider s.pkgs)
    (h : processPackage cfg provider n imp s = (s1, Except.ok ()))
    (hno : lookupA s1.pkgs imp = none) :
    s1.pkgs = s.pkgs
    ∧ (cfg.ignored.contains imp = true
       ∨ ∃ pkg, provider imp = Except.ok pkg ∧ isIgnored cfg pkg = true) := by
  cases n with
  | zero =>
    exfalso
    simp only [processPackage] at h
    injection h with _ h2
    exact Except.noConfusion h2
  | succ n =>
    by_cases hc : cfg.ignored.contains imp = true
    · rw [processPackage_exact_ignored cfg provider n imp s hc] at h
      injection h with h1 _
      exact ⟨by rw [← h1], Or.inl hc⟩
    · cases hp : provider imp with
      | error e =>
        exfalso
        rw [processPackage_provider_error cfg provider n imp s e hc hp] at h
        injection h with _ h2
        exact Except.noConfusion h2
      | ok pkg =>
        by_cases hig : isIgnored cfg pkg = true
        · rw [processPackage_filtered cfg provider n imp s pkg hc hp hig] at h
          injection h with h1 _
          exact ⟨by rw [← h1], Or.inr ⟨pkg, rfl, hig⟩⟩
        · exfalso
          have hip : pkg.importPath = imp := hcan imp pkg hp
          by_cases hgr : (pkg.goroot && !cfg.delveGoroot) = true
          · rw [processPackage_goroot_leaf cfg provider n imp s pkg hc hp
              (bool_eq_false hig) hgr] at h
            injection h with h1 _
            rw [← h1] at hno
            dsimp only at hno
            rw [hip, lookupA_insertA_self] at hno
            exact Option.noConfusion hno
          · rw [processPackage_expand cfg provider n imp s pkg hc hp
              (bool_eq_false hig) (bool_eq_false hgr)] at h
            have hkey : lookupA (insertA s.pkgs pkg.importPath pkg) imp = some pkg := by
              rw [hip]
              exact lookupA_insertA_self _ _ _
            have hcons2 := insertA_consistent provider hcons hp hip
            obtain ⟨-, hm⟩ := processImports_mono_consistent provider _
              (fun i t ht => processPackage_mono_consistent cfg provider hcan n i t ht)
              (getImports cfg pkg)
              ⟨insertA s.pkgs pkg.importPath pkg, s.log ++ [imp]⟩ hcons2
            have hsome := hm imp pkg hkey
            rw [h] at hsome
            exact Option.noConfusion (hno.symm.trans hsome)

theorem processImports_replay (cfg : Config) (provider : String → Except String Package)
    (hcan : CanonicalProvider provider) (n : Nat)
    (hPn : ∀ (p : String) (s s' t : St), ConsistentStore provider s.pkgs →
      processPackage cfg provider n p s = (s', Except.ok ()) → t.pkgs = s'.pkgs →
      (processPackage cfg provider n p t).1.pkgs = s'.pkgs
        ∧ (processPackage cfg provider n p t).2 = Except.ok ()) :
    ∀ (imps : List String) (s s' t : St), ConsistentStore provider s.pkgs →
      processImports (processPackage cfg provider n) imps s = (s', Except.ok ()) →
      t.pkgs = s'.pkgs →
      (processImports (processPackage cfg provider n) imps t).1.pkgs = s'.pkgs
        ∧ (processImports (processPackage cfg provider n) imps t).2 = Except.ok () := by
  intro imps
  induction imps with
  | nil =>
    intro s s' t _ heq ht
    exact ⟨ht, rfl⟩
  | cons imp rest ih =>
    intro s s' t hcons heq ht
    simp only [processImports] at heq ⊢
    cases hl : lookupA s.pkgs imp with
    | some q =>
      rw [hl] at heq
      replace heq : processImports (processPackage cfg provider n) rest s
          = (s', Except.ok ()) := heq
      have hmono := (processImports_mono_consistent provider _
        (fun i u hu => processPackage_mono_consistent cfg provider hcan n i u hu)
        rest s hcons).2 imp q hl
      rw [heq] at hmono
      have hlt : lookupA t.pkgs imp = some q := by rw [ht]; exact hmono
      rw [hlt]
      exact ih s s' t hcons heq ht
    | none =>
      rw [hl] at heq
      cases hres : processPackage cfg provider n imp s with
      | mk s1 r =>
        rw [hres] at heq
        cases r with
        | error e =>
          exfalso
          replace heq : ((s1, Except.error e) : St × Except String Unit)
              = (s', Except.ok ()) := heq
          injection heq with _ h2
          exact Except.noConfusion h2
        | ok u =>
          replace heq : processImports (processPackage cfg provider n) rest s1
              = (s', Except.ok ()) := heq
          have hcons1 : ConsistentStore provider s1.pkgs := by
            have hh := (processPackage_mono_consistent cfg provider hcan n imp s hcons).1
            rw [hres] at hh
            exact hh
          cases hlook : lookupA s'.pkgs imp with
          | some w =>
            have hlt : lookupA t.pkgs imp = some w := by rw [ht]; exact hlook
            rw [hlt]
            exact ih s1 s' t hcons1 heq ht
          | none =>
            have hno1 : lookupA s1.pkgs imp = none := by
              cases hx : lookupA s1.pkgs imp with
              | none => rfl
              | some w =>
                exfalso
                have hh := (processImports_mono_consistent provider _
                  (fun i u hu => processPackage_mono_consistent cfg provider hcan n i u hu)
                  rest s1 hcons1).2 imp w hx
                rw [heq] at hh
                exact Option.noConfusion (hlook.symm.trans hh)
            obtain ⟨hs1, hbranch⟩ := processPackage_not_stored cfg provider hcan n imp s s1
              hcons hres hno1
            have hlt : lookupA t.pkgs imp = none := by rw [ht]; exact hlook
            rw [hlt]
            have hn : n ≠ 0 := by
              intro h0
              subst h0
              simp only [processPackage] at hres
              injection hres with _ h2
              exact Except.noConfusion h2
            obtain ⟨m, rfl⟩ : ∃ m, n = m + 1 := ⟨n - 1, by omega⟩
            by_cases hc : cfg.ignored.contains imp = true
            · rw [processPackage_exact_ignored cfg provider m imp t hc]
              exact ih s1 s' t hcons1 heq ht
            · rcases hbranch with hc2 | ⟨pkg, hp, hig⟩
              · exact absurd hc2 hc
              · rw [processPackage_filtered cfg provider m imp t pkg hc hp hig]
                exact ih s1 s' ({ t with log := t.log ++ [imp] }) hcons1 heq ht

theorem processPackage_replay (cfg : Config) (provider : String → Except String Package)
    (hcan : CanonicalProvider provider) :
    ∀ (n : Nat) (p : String) (s s' t : St), ConsistentStore provider s.pkgs →
      processPackage cfg provider n p s = (s', Except.ok ()) → t.pkgs = s'.pkgs →
      (processPackage cfg provider n p t).1.pkgs = s'.pkgs
        ∧ (processPackage cfg provider n p t).2 = Except.ok () := by
  intro n
  induction n with
  | zero =>
    intro p s s' t _ heq _
    exfalso
    simp only [processPackage] at heq
    injection heq with _ h2
    exact Except.noConfusion h2
  | succ n ih =>
    intro p s s' t hcons heq ht
    by_cases hc : cfg.ignored.contains p = true
    · rw [processPackage_exact_ignored cfg provider n p s hc] at heq
      rw [processPackage_exact_ignored cfg provider n p t hc]
      exact ⟨ht, rfl⟩
    · cases hp : provider p with
      | error e =>
        exfalso
        rw [processPackage_provider_error cfg provider n p s e hc hp] at heq
        injection heq with _ h2
        exact Except.noConfusion h2
      | ok pkg =>
        by_cases hig : isIgnored cfg pkg = true
        · rw [processPackage_filtered cfg provider n p s pkg hc hp hig] at heq
          rw [processPackage_filtered cfg provider n p t pkg hc hp hig]
          exact ⟨ht, rfl⟩
        · have hip : pkg.importPath = p := hcan p pkg hp
          by_cases hgr : (pkg.goroot && !cfg.delveGoroot) = true
          · rw [processPackage_goroot_leaf cfg provider n p s pkg hc hp
              (bool_eq_false hig) hgr] at heq
            injection heq with h1 _
            rw [processPackage_goroot_leaf cfg provider n p t pkg hc hp
              (bool_eq_false hig) hgr]
            have hkey : lookupA s'.pkgs pkg.importPath = some pkg := by
              rw [← h1]
              exact lookupA_insertA_self _ _ _
            refine ⟨?_, rfl⟩
            dsimp only
            rw [ht, insertA_of_lookupA_eq hkey]
          · rw [processPackage_expand cfg provider n p s pkg hc hp
              (bool_eq_false hig) (bool_eq_false hgr)] at heq
            have hcons2 : ConsistentStore provider (insertA s.pkgs pkg.importPath pkg) :=
              insertA_consistent provider hcons hp hip
            have hkey : lookupA s'.pkgs pkg.importPath = some pkg := by
              have hh := (processImports_mono_consistent provider _
                (fun i u hu => processPackage_mono_consistent cfg provider hcan n i u hu)
                (getImports cfg pkg)
                ⟨insertA s.pkgs pkg.importPath pkg, s.log ++ [p]⟩ hcons2).2
                pkg.importPath pkg (lookupA_insertA_self _ _ _)
              rw [heq] at hh
              exact hh
            rw [processPackage_expand cfg provider n p t pkg hc hp
              (bool_eq_false hig) (bool_eq_false hgr)]
            have ht2 : (⟨insertA t.pkgs pkg.importPath pkg, t.log ++ [p]⟩ : St).pkgs
                = s'.pkgs := by
              dsimp only
              rw [ht, insertA_of_lookupA_eq hkey]
            exact processImports_replay cfg provider hcan n ih (getImports cfg pkg)
              ⟨insertA s.pkgs pkg.importPath pkg, s.log ++ [p]⟩ s'
              ⟨insertA t.pkgs pkg.importPath pkg, t.log ++ [p]⟩ hcons2 heq ht2

/-- C2 counterexample: after a first successful resolution of "a" the
descriptor is in the store, yet a second direct invocation of
`processPackage` on "a" queries the metadata provider again (the invocation
log grows from `["a"]` to `["a", "a"]`), refuting "the external
package-metadata provider is not re-invoked for that path". -/
theorem C2_counterexample :
    lookupA (processPackage exampleConfig exampleProviderSingle 9 "a" initSt).1.pkgs "a"
      = some (examplePkg "a" false [])
    ∧ (processPackage exampleConfig exampleProviderSingle 9 "a" initSt).1.log = ["a"]
    ∧ (processPackage exampleConfig exampleProviderSingle 9 "a"
        (processPackage exampleConfig exampleProviderSingle 9 "a" initSt).1).1.log
      = ["a", "a"] :=
  ⟨rfl, rfl, rfl⟩

/-- C2 (amended): a second invocation of `processPackage` on an
already-resolved path leaves the Package Store unchanged and still succeeds
(for a canonical provider and a provider-consistent starting store), but the
provider IS re-invoked for that path; the memoization that skips
re-resolution sits at the recursion over imports, where an import whose
descriptor is already stored is not resolved again. -/
theorem C2_second_resolution_store_unchanged (cfg : Config)
    (provider : String → Except String Package) (hcan : CanonicalProvider provider)
    (n : Nat) (p : String) (s s' : St) (hcons : ConsistentStore provider s.pkgs)
    (h : processPackage cfg provider n p s = (s', Except.ok ())) :
    (processPackage cfg provider n p s').1.pkgs = s'.pkgs
    ∧ (processPackage cfg provider n p s').2 = Except.ok ()
    ∧ (∀ (step : String → St → St × Except String Unit) (imp : String)
        (rest : List String) (t : St) (q : Package), lookupA t.pkgs imp = some q →
        processImports step (imp :: rest) t = processImports step rest t)
    ∧ (processPackage exampleConfig exampleProviderSingle 9 "a"
        (processPackage exampleConfig exampleProviderSingle 9 "a" initSt).1).1.log
      = ["a", "a"] := by
  obtain ⟨h1, h2⟩ := processPackage_replay cfg provider hcan n p s s' s' hcons h rfl
  exact ⟨h1, h2,
    fun step imp rest t q hq => processImports_skip step imp rest t q hq, rfl⟩

/-- C2 witness: the single-package provider, re-resolving "a" from the
post-resolution state. -/
theorem C2_second_resolution_store_unchanged_witness :
    (processPackage exampleConfig exampleProviderSingle 9 "a"
        (⟨[("a", examplePkg "a" false [])], ["a"]⟩ : St)).1.pkgs
      = (⟨[("a", examplePkg "a" false [])], ["a"]⟩ : St).pkgs
    ∧ (processPackage exampleConfig exampleProviderSingle 9 "a"
        (⟨[("a", examplePkg "a" false [])], ["a"]⟩ : St)).2 = Except.ok ()
    ∧ (∀ (step : String → St → St × Except String Unit) (imp : String)
        (rest : List String) (t : St) (q : Package), lookupA t.pkgs imp = some q →
        processImports step (imp :: rest) t = processImports step rest t)
    ∧ (processPackage exampleConfig exampleProviderSingle 9 "a"
        (processPackage exampleConfig exampleProviderSingle 9 "a" initSt).1).1.log
      = ["a", "a"] :=
  C2_second_resolution_store_unchanged exampleConfig exampleProviderSingle
    (by
      intro p pkg h
      unfold exampleProviderSingle at h
      split at h
      · next hpa =>
        injection h with h'
        rw [← h', hpa]
        rfl
      · exact Except.noConfusion h)
    9 "a" initSt ⟨[("a", examplePkg "a" false [])], ["a"]⟩
    (by intro k v hv; simp [initSt, lookupA] at hv) rfl

end Godepgraph
